import Mathlib

/-!
Verification of the untangle-puzzle engine in `src/components/GameScene.tsx`.

The TypeScript source is shallowly embedded here: JavaScript numbers are
modelled as rationals (`ℚ`), the THREE.js `Vector3` positions as `Vec3`,
the data-model interfaces of `src/types.ts` as structures, and each
function of the source as a Lean definition of the same name.  Calls to
`Math.random()` are modelled as explicit streams of rationals in `[0, 1)`
consumed in program order; the transcendental initial circle placement
(`Math.cos` / `Math.sin`) is abstracted as an explicit placement parameter,
since no verified property depends on the concrete coordinates it yields.
-/

/-- Model of `THREE.Vector3`: a 3-component vector. -/
structure Vec3 where
  x : ℚ
  y : ℚ
  z : ℚ
deriving DecidableEq

/-- The determinant computed at the first line of `doIntersect`
(`GameScene.tsx` line 235): `(b.x−a.x)(d.y−c.y) − (b.y−a.y)(d.x−c.x)`. -/
def detOf (a b c d : Vec3) : ℚ :=
  (b.x - a.x) * (d.y - c.y) - (b.y - a.y) * (d.x - c.x)

/-- The `lambda` parameter of `doIntersect` (`GameScene.tsx` line 237). -/
def lambdaOf (a b c d : Vec3) : ℚ :=
  ((d.y - c.y) * (d.x - a.x) + (c.x - d.x) * (d.y - a.y)) / detOf a b c d

/-- The `gamma` parameter of `doIntersect` (`GameScene.tsx` line 238). -/
def gammaOf (a b c d : Vec3) : ℚ :=
  ((a.y - b.y) * (d.x - a.x) + (b.x - a.x) * (d.y - a.y)) / detOf a b c d

/-- `doIntersect` (`GameScene.tsx` lines 234–242): segment intersection test.
Returns `false` when `|det| < 0.001`; otherwise tests that both solved
parameters lie strictly inside `(eps, 1 − eps)` with `eps = 0.05`. -/
def doIntersect (a b c d : Vec3) : Bool :=
  if |detOf a b c d| < 0.001 then false
  else
    let eps : ℚ := 0.05
    decide (eps < lambdaOf a b c d) && decide (lambdaOf a b c d < 1 - eps) &&
      (decide (eps < gammaOf a b c d) && decide (gammaOf a b c d < 1 - eps))

/-- A rope entry of the engine's `ropes` map (`GameScene.tsx` line 30): the
rope id together with its two pin ids. -/
structure RopeRef where
  id : String
  p1 : String
  p2 : String
deriving DecidableEq

/-- The adjacency test at line 254 of `checkIntersections`: the pair is
skipped when the two ropes share a pin id. -/
def sharesPin (r1 r2 : RopeRef) : Prop :=
  r1.p1 = r2.p1 ∨ r1.p1 = r2.p2 ∨ r1.p2 = r2.p1 ∨ r1.p2 = r2.p2

instance (r1 r2 : RopeRef) : Decidable (sharesPin r1 r2) := by
  unfold sharesPin; infer_instance

/-- One iteration of the double loop of `checkIntersections` (lines 249–267):
whether the pair `(r1, r2)` is counted as a crossing.  Pairs sharing a pin id
are skipped (`continue`), as are pairs with a missing pin. -/
def pairTangles (pins : String → Option Vec3) (r1 r2 : RopeRef) : Bool :=
  if sharesPin r1 r2 then false
  else
    match pins r1.p1, pins r1.p2, pins r2.p1, pins r2.p2 with
    | some q1, some q2, some q3, some q4 => doIntersect q1 q2 q3 q4
    | _, _, _, _ => false

/-- The iteration space of the double loop: ordered pairs `(l[i], l[j])`
with `i < j`, in loop order. -/
def allPairs {α : Type} : List α → List (α × α)
  | [] => []
  | x :: xs => xs.map (fun y => (x, y)) ++ allPairs xs

/-- The pairs for which the double loop of `checkIntersections` calls
`tangledIds.add` on both rope ids (lines 263–266). -/
def tangledPairs (pins : String → Option Vec3) (ropes : List RopeRef) :
    List (RopeRef × RopeRef) :=
  (allPairs ropes).filter (fun rs => pairTangles pins rs.1 rs.2)

/-- The `tangledIds` set built by `checkIntersections` (line 246), modelled as
the list of ids added; the set is observed only through membership (the
per-edge tangled flag of line 276) and emptiness (line 280), both of which
ignore duplicates. -/
def tangledIds (pins : String → Option Vec3) (ropes : List RopeRef) : List String :=
  ((tangledPairs pins ropes).map (fun rs => [rs.1.id, rs.2.id])).flatten

/-- The return value of `checkIntersections` (line 280):
`tangledIds.size === 0`. -/
def checkIntersections (pins : String → Option Vec3) (ropes : List RopeRef) : Bool :=
  (tangledIds pins ropes).isEmpty

/-- The win test evaluated by `checkWinCondition` (line 288):
`s.ropes.size > 0 && isSolved`. -/
def solvedEval (pins : String → Option Vec3) (ropes : List RopeRef) : Bool :=
  decide (0 < ropes.length) && checkIntersections pins ropes

/-- The engine's mutable state (`GameScene.tsx` lines 19–34), restricted to
the fields the puzzle logic reads: per-pin positions (the `pins` map), the
fixed rope list, the currently dragged pin, and the terminal flags. -/
structure EngineState where
  pins : List (String × Vec3)
  ropes : List RopeRef
  selectedPointId : Option String
  isComplete : Bool
  initialized : Bool

/-- Lookup in the `pins` map (`s.pins.get(id)`). -/
def stateLookup (s : EngineState) : String → Option Vec3 :=
  fun i => ((s.pins.find? (fun q => q.1 == i)).map Prod.snd)

/-- `THREE.MathUtils.clamp(value, lo, hi) = Math.max(lo, Math.min(hi, value))`. -/
def clampQ (v lo hi : ℚ) : ℚ := max lo (min hi v)

/-- Overwriting one pin's position in the `pins` map
(`pin.position.copy(nextPos)`, line 349). -/
def setPin (pins : List (String × Vec3)) (i : String) (v : Vec3) :
    List (String × Vec3) :=
  pins.map (fun q => if q.1 == i then (q.1, v) else q)

/-- `checkWinCondition` (lines 283–295): no-op unless initialized and not yet
complete; sets `isComplete` when at least one rope exists and the board is
clear.  (Confetti and the `onComplete` callback are host-side effects.) -/
def checkWinCondition (s : EngineState) : EngineState :=
  if ¬ s.initialized ∨ s.isComplete then s
  else if solvedEval (stateLookup s) s.ropes then { s with isComplete := true }
  else s

/-- `onPointerDown` (lines 315–333).  The raycast result is an input: the id
of the pin hit, if any.  Scale and drag-plane bookkeeping are cosmetic. -/
def onPointerDown (s : EngineState) (hit : Option String) : EngineState :=
  if s.isComplete then s
  else
    match hit with
    | some i => { s with selectedPointId := some i }
    | none => s

/-- `onPointerMove` (lines 335–353).  The drag-plane intersection minus the
drag offset is an input (`none` when the ray misses the plane); x and y are
clamped to the playable region before the position is stored. -/
def onPointerMove (s : EngineState) (target : Option Vec3) : EngineState :=
  if s.selectedPointId = none ∨ s.isComplete then s
  else
    match s.selectedPointId, target with
    | some i, some nextPos =>
        match stateLookup s i with
        | some _ =>
            { s with
              pins := setPin s.pins i
                ⟨clampQ nextPos.x (-9) 9, clampQ nextPos.y (-14) 14, nextPos.z⟩ }
        | none => s
    | _, _ => s

/-- `onPointerUp` (lines 355–364): clears the selection and runs the win
check.  (The `onMove` callback and scale reset are host-side effects.) -/
def onPointerUp (s : EngineState) : EngineState :=
  match s.selectedPointId with
  | some _ => checkWinCondition { s with selectedPointId := none }
  | none => s

/-- `Point` (src/types.ts). -/
structure Point where
  id : String
  x : ℚ
  y : ℚ
  z : ℚ
  color : String
deriving DecidableEq

/-- `Rope` (src/types.ts). -/
structure Rope where
  id : String
  p1 : String
  p2 : String
  color : String
deriving DecidableEq

/-- `LevelData` (src/types.ts). -/
structure LevelData where
  points : List Point
  ropes : List Rope

/-- The `COLORS` palette (`GameScene.tsx` line 12). -/
def COLORS : List String :=
  ["#FF3D71", "#3366FF", "#00D68F", "#FFAA00", "#D948FF", "#00E096", "#FF5722", "#00BCD4"]

/-- The point id `` `p${i}` `` (line 89). -/
def pid (i : ℕ) : String := "p" ++ toString i

/-- `pointCount` (line 77): `Math.min(5 + Math.floor(lvl / 10), 15)`. -/
def pointCount (lvl : ℕ) : ℕ := min (5 + lvl / 10) 15

/-- `connectionDensity` (line 78): `1.2 + (lvl / 100) * 0.8`. -/
def connectionDensity (lvl : ℕ) : ℚ := 1.2 + ((lvl : ℚ) / 100) * 0.8

/-- `scrambleCount` (line 79): `20 + lvl * 2`. -/
def scrambleCount (lvl : ℕ) : ℕ := 20 + lvl * 2

/-- `extraRopes` (line 114): `Math.floor(pointCount * connectionDensity) - pointCount`. -/
def extraRopeCount (lvl : ℕ) : ℤ :=
  ⌊(pointCount lvl : ℚ) * connectionDensity lvl⌋ - pointCount lvl

/-- `Math.floor(r * n)` for a random draw `r`. -/
def randIdx (r : ℚ) (n : ℕ) : ℕ := (⌊r * n⌋).toNat

/-- `2 + Math.floor(r * (n / 3))` (line 117). -/
def randOffset (r : ℚ) (n : ℕ) : ℕ := 2 + (⌊r * ((n : ℚ) / 3)⌋).toNat

/-- The pin creation loop (lines 86–95).  `place i` abstracts the
transcendental circle placement `(cos(2πi/n)·4.5, sin(2πi/n)·4.5)`. -/
def initPoints (place : ℕ → ℚ × ℚ) (n : ℕ) : List Point :=
  (List.range n).map fun i =>
    { id := pid i, x := (place i).1, y := (place i).2, z := 0,
      color := COLORS.getD (i % COLORS.length) "" }

/-- State of the rope-building phase: the `connections` dedup set (keys are
the sorted index pairs of `[i, j].sort().join('-')`) and the `ropes` array,
kept here at the index level. -/
structure GenRopes where
  conns : List (ℕ × ℕ)
  pairs : List (ℕ × ℕ)

/-- The dedup key of line 100: the sorted index pair. -/
def keyOf (ij : ℕ × ℕ) : ℕ × ℕ := (min ij.1 ij.2, max ij.1 ij.2)

/-- `addRope` (lines 99–105): skip self-loops and already-present unordered
pairs, otherwise record the key and push the rope. -/
def addRope (st : GenRopes) (i j : ℕ) : GenRopes :=
  if i ≠ j ∧ keyOf (i, j) ∉ st.conns then
    { conns := keyOf (i, j) :: st.conns, pairs := st.pairs ++ [(i, j)] }
  else st

/-- The mandatory ring (lines 108–110). -/
def ringPhase (n : ℕ) : GenRopes :=
  (List.range n).foldl (fun st i => addRope st i ((i + 1) % n)) ⟨[], []⟩

/-- The extra-chord loop (lines 115–119); `rands k` are the two
`Math.random()` draws of iteration `k`. -/
def extraPhase (n : ℕ) (rands : ℕ → ℚ × ℚ) : ℕ → ℕ → GenRopes → GenRopes
  | _, 0, st => st
  | k, cnt + 1, st =>
      extraPhase n rands (k + 1) cnt
        (addRope st (randIdx (rands k).1 n)
          ((randIdx (rands k).1 n + randOffset (rands k).2 n) % n))

/-- Materializing the rope records pushed by `addRope` (line 103): the id is
`` `r${ropes.length}` `` at push time, i.e. the position in the list. -/
def ropesOfPairs : ℕ → List (ℕ × ℕ) → List Rope
  | _, [] => []
  | k, ij :: rest =>
      ⟨"r" ++ toString k, pid ij.1, pid ij.2, "#ffffff"⟩ :: ropesOfPairs (k + 1) rest

/-- One scramble swap (lines 124–131): exchange the x and y coordinates of
the points at indices `a` and `b`. -/
def swapXY (pts : List Point) (a b : ℕ) : List Point :=
  match pts[a]?, pts[b]? with
  | some pa, some pb =>
      (pts.set a { pa with x := pb.x, y := pb.y }).set b { pb with x := pa.x, y := pa.y }
  | _, _ => pts

/-- The scramble loop (lines 123–132). -/
def scramblePhase (n : ℕ) (rands : ℕ → ℚ × ℚ) : ℕ → ℕ → List Point → List Point
  | _, 0, pts => pts
  | k, cnt + 1, pts =>
      scramblePhase n rands (k + 1) cnt
        (swapXY pts (randIdx (rands k).1 n) (randIdx (rands k).2 n))

/-- The jitter pass (lines 135–138): `p.x += (r − 0.5) * 2` and likewise for
`y`, in list order. -/
def jitterPhase (rands : ℕ → ℚ × ℚ) : ℕ → List Point → List Point
  | _, [] => []
  | k, p :: ps =>
      { p with x := p.x + ((rands k).1 - 0.5) * 2,
               y := p.y + ((rands k).2 - 0.5) * 2 } :: jitterPhase rands (k + 1) ps

/-- `generateLevel` (lines 75–141).  `place` abstracts the circle placement;
`extraRand`, `scramRand`, `jitterRand` are the `Math.random()` streams of the
three random loops, in consumption order. -/
def generateLevel (place : ℕ → ℚ × ℚ) (lvl : ℕ)
    (extraRand scramRand jitterRand : ℕ → ℚ × ℚ) : LevelData :=
  let n := pointCount lvl
  let pts := initPoints place n
  let st := extraPhase n extraRand 0 (extraRopeCount lvl).toNat (ringPhase n)
  { points := jitterPhase jitterRand 0 (scramblePhase n scramRand 0 (scrambleCount lvl) pts),
    ropes := ropesOfPairs 0 st.pairs }

/-- The contract of `Math.random()`: every draw lies in `[0, 1)`. -/
def RandStream01 (r : ℕ → ℚ × ℚ) : Prop :=
  ∀ k, 0 ≤ (r k).1 ∧ (r k).1 < 1 ∧ 0 ≤ (r k).2 ∧ (r k).2 < 1

/-- An index pair is well-formed for `n` points: distinct and in range. -/
def goodPair (n : ℕ) (ij : ℕ × ℕ) : Prop := ij.1 ≠ ij.2 ∧ ij.1 < n ∧ ij.2 < n

/-- Invariant of the rope-building phase: every pushed pair is well-formed
and registered in the dedup set, and the pushed keys are pairwise distinct. -/
def GoodState (n : ℕ) (st : GenRopes) : Prop :=
  (∀ p ∈ st.pairs, goodPair n p ∧ keyOf p ∈ st.conns) ∧ (st.pairs.map keyOf).Nodup

/-- The form of every chord added by the extra-rope loop: node `i` joined to
`(i + o) % n` for an offset `2 ≤ o < 2 + n/3`. -/
def ChordForm (n : ℕ) (p : ℕ × ℕ) : Prop :=
  ∃ i o : ℕ, i < n ∧ 2 ≤ o ∧ (o : ℚ) < 2 + (n : ℚ) / 3 ∧ p = (i, (i + o) % n)

lemma detOf_swap (a b c d : Vec3) : detOf c d a b = -detOf a b c d := by
  unfold detOf; ring

lemma lambdaOf_swap (a b c d : Vec3) (h : detOf a b c d ≠ 0) :
    lambdaOf c d a b = 1 - gammaOf a b c d := by
  have hs : detOf c d a b = -detOf a b c d := detOf_swap a b c d
  unfold lambdaOf gammaOf
  rw [hs, div_neg, ← neg_div, eq_sub_iff_add_eq, div_add_div_same]
  have key : -((b.y - a.y) * (b.x - c.x) + (a.x - b.x) * (b.y - c.y)) +
      ((a.y - b.y) * (d.x - a.x) + (b.x - a.x) * (d.y - a.y)) = detOf a b c d := by
    unfold detOf; ring
  rw [key, div_self h]

lemma gammaOf_swap (a b c d : Vec3) (h : detOf a b c d ≠ 0) :
    gammaOf c d a b = 1 - lambdaOf a b c d := by
  have hs : detOf c d a b = -detOf a b c d := detOf_swap a b c d
  unfold lambdaOf gammaOf
  rw [hs, div_neg, ← neg_div, eq_sub_iff_add_eq, div_add_div_same]
  have key : -((c.y - d.y) * (b.x - c.x) + (d.x - c.x) * (b.y - c.y)) +
      ((d.y - c.y) * (d.x - a.x) + (c.x - d.x) * (d.y - a.y)) = detOf a b c d := by
    unfold detOf; ring
  rw [key, div_self h]

lemma detOf_ne_zero_of_not_lt (a b c d : Vec3) (h : ¬ |detOf a b c d| < 0.001) :
    detOf a b c d ≠ 0 := by
  intro h0
  apply h
  rw [h0]
  norm_num

/-- C2: the intersection test returns `false` whenever `|det| < 0.001`
(a near-zero determinant yields "no intersection", never an error), and
otherwise reports a crossing exactly when both solved parameters `λ` and
`γ` lie strictly inside the open interval `(0.05, 0.95)`. -/
theorem doIntersect_spec (a b c d : Vec3) :
    (|detOf a b c d| < 0.001 → doIntersect a b c d = false) ∧
    (¬ |detOf a b c d| < 0.001 →
      (doIntersect a b c d = true ↔
        (0.05 < lambdaOf a b c d ∧ lambdaOf a b c d < 0.95 ∧
         0.05 < gammaOf a b c d ∧ gammaOf a b c d < 0.95))) := by
  constructor
  · intro h
    unfold doIntersect
    rw [if_pos h]
  · intro h
    unfold doIntersect
    rw [if_neg h]
    have h95 : (1 : ℚ) - 0.05 = 0.95 := by norm_num
    simp only [h95, Bool.and_eq_true, decide_eq_true_eq]
    tauto

/-- Witness for `doIntersect_spec`: the two diagonals of the unit-style
square from the spec's scenario cross with `λ = γ = 1/2`. -/
theorem doIntersect_spec_witness :
    ¬ |detOf ⟨0,0,0⟩ ⟨10,10,0⟩ ⟨10,0,0⟩ ⟨0,10,0⟩| < 0.001 ∧
      (doIntersect ⟨0,0,0⟩ ⟨10,10,0⟩ ⟨10,0,0⟩ ⟨0,10,0⟩ = true ↔
        (0.05 < lambdaOf ⟨0,0,0⟩ ⟨10,10,0⟩ ⟨10,0,0⟩ ⟨0,10,0⟩ ∧
         lambdaOf ⟨0,0,0⟩ ⟨10,10,0⟩ ⟨10,0,0⟩ ⟨0,10,0⟩ < 0.95 ∧
         0.05 < gammaOf ⟨0,0,0⟩ ⟨10,10,0⟩ ⟨10,0,0⟩ ⟨0,10,0⟩ ∧
         gammaOf ⟨0,0,0⟩ ⟨10,10,0⟩ ⟨10,0,0⟩ ⟨0,10,0⟩ < 0.95)) :=
  ⟨by norm_num [detOf],
   (doIntersect_spec ⟨0,0,0⟩ ⟨10,10,0⟩ ⟨10,0,0⟩ ⟨0,10,0⟩).2 (by norm_num [detOf])⟩

/-- C10: the intersection test is symmetric in its two segments:
`doIntersect a b c d = doIntersect c d a b` for all points. -/
theorem doIntersect_symm (a b c d : Vec3) :
    doIntersect a b c d = doIntersect c d a b := by
  by_cases h : |detOf a b c d| < 0.001
  · have h' : |detOf c d a b| < 0.001 := by rwa [detOf_swap, abs_neg]
    unfold doIntersect
    rw [if_pos h, if_pos h']
  · have h' : ¬ |detOf c d a b| < 0.001 := by rwa [detOf_swap, abs_neg]
    have hd : detOf a b c d ≠ 0 := detOf_ne_zero_of_not_lt a b c d h
    unfold doIntersect
    rw [if_neg h, if_neg h', lambdaOf_swap a b c d hd, gammaOf_swap a b c d hd]
    rw [Bool.eq_iff_iff]
    simp only [Bool.and_eq_true, decide_eq_true_eq]
    constructor
    · rintro ⟨⟨h1, h2⟩, h3, h4⟩
      refine ⟨⟨by linarith, by linarith⟩, by linarith, by linarith⟩
    · rintro ⟨⟨h1, h2⟩, h3, h4⟩
      refine ⟨⟨by linarith, by linarith⟩, by linarith, by linarith⟩

lemma sharesPin_symm (r1 r2 : RopeRef) (h : sharesPin r1 r2) : sharesPin r2 r1 := by
  unfold sharesPin at h ⊢; tauto

lemma mem_of_mem_allPairs {α : Type} (l : List α) (p : α × α)
    (hp : p ∈ allPairs l) : p.1 ∈ l ∧ p.2 ∈ l := by
  induction l with
  | nil => simp [allPairs] at hp
  | cons x xs ih =>
      simp only [allPairs, List.mem_append, List.mem_map] at hp
      rcases hp with ⟨y, hy, rfl⟩ | hp
      · exact ⟨List.mem_cons_self x xs, List.mem_cons_of_mem x hy⟩
      · exact ⟨List.mem_cons_of_mem x (ih hp).1, List.mem_cons_of_mem x (ih hp).2⟩

lemma exists_rope_of_mem_tangledIds (pins : String → Option Vec3)
    (ropes : List RopeRef) (x : String) (h : x ∈ tangledIds pins ropes) :
    ∃ r ∈ ropes, r.id = x := by
  unfold tangledIds at h
  simp only [List.mem_flatten, List.mem_map] at h
  obtain ⟨l, ⟨rs, hrs, rfl⟩, hx⟩ := h
  have hmem : rs ∈ allPairs ropes := List.mem_of_mem_filter hrs
  have h12 := mem_of_mem_allPairs ropes rs hmem
  simp only [List.mem_cons, List.not_mem_nil, or_false] at hx
  rcases hx with rfl | rfl
  · exact ⟨rs.1, h12.1, rfl⟩
  · exact ⟨rs.2, h12.2, rfl⟩

/-- C1: an evaluation reports `solved = true` iff the level has at least one
edge and no edge is marked tangled; an empty edge set is never solved. -/
theorem solvedEval_spec (pins : String → Option Vec3) (ropes : List RopeRef) :
    (solvedEval pins ropes = true ↔
      ropes ≠ [] ∧ ∀ r ∈ ropes, r.id ∉ tangledIds pins ropes) ∧
    solvedEval pins [] = false := by
  constructor
  · unfold solvedEval checkIntersections
    rw [Bool.and_eq_true, decide_eq_true_eq, List.isEmpty_iff]
    constructor
    · rintro ⟨hl, he⟩
      refine ⟨List.length_pos.mp hl, ?_⟩
      intro r _ hr
      rw [he] at hr
      exact List.not_mem_nil _ hr
    · rintro ⟨hne, hall⟩
      refine ⟨List.length_pos.mpr hne, ?_⟩
      by_contra hne'
      obtain ⟨x, hx⟩ := List.exists_mem_of_ne_nil _ hne'
      obtain ⟨r, hr, rfl⟩ := exists_rope_of_mem_tangledIds pins ropes x hx
      exact hall r hr hx
  · simp [solvedEval]

/-- C3: two distinct edges sharing a pin id are never counted as a crossing
pair, whatever the pin placement; only pairs sharing no endpoint are tested,
and the geometric test reads only the x and y coordinates. -/
theorem adjacent_never_tangled (r1 r2 : RopeRef) (h : sharesPin r1 r2) :
    (∀ pins, pairTangles pins r1 r2 = false) ∧
    (∀ pins ropes, (r1, r2) ∉ tangledPairs pins ropes ∧
      (r2, r1) ∉ tangledPairs pins ropes) ∧
    (∀ x1 y1 z1 w1 x2 y2 z2 w2 x3 y3 z3 w3 x4 y4 z4 w4 : ℚ,
      doIntersect ⟨x1, y1, z1⟩ ⟨x2, y2, z2⟩ ⟨x3, y3, z3⟩ ⟨x4, y4, z4⟩ =
      doIntersect ⟨x1, y1, w1⟩ ⟨x2, y2, w2⟩ ⟨x3, y3, w3⟩ ⟨x4, y4, w4⟩) := by
  have hfalse : ∀ pins, pairTangles pins r1 r2 = false := by
    intro pins; unfold pairTangles; rw [if_pos h]
  have hfalse' : ∀ pins, pairTangles pins r2 r1 = false := by
    intro pins; unfold pairTangles; rw [if_pos (sharesPin_symm r1 r2 h)]
  refine ⟨hfalse, ?_, ?_⟩
  · intro pins ropes
    constructor
    · intro hmem
      have := List.of_mem_filter hmem
      rw [hfalse pins] at this
      exact Bool.false_ne_true this
    · intro hmem
      have := List.of_mem_filter hmem
      rw [hfalse' pins] at this
      exact Bool.false_ne_true this
  · intro x1 y1 z1 w1 x2 y2 z2 w2 x3 y3 z3 w3 x4 y4 z4 w4
    rfl

/-- Witness for `adjacent_never_tangled`: two ring ropes sharing pin `p1`. -/
theorem adjacent_never_tangled_witness :
    sharesPin ⟨"r0", "p0", "p1"⟩ ⟨"r1", "p1", "p2"⟩ ∧
    ((∀ pins, pairTangles pins ⟨"r0", "p0", "p1"⟩ ⟨"r1", "p1", "p2"⟩ = false) ∧
     (∀ pins ropes, (⟨"r0", "p0", "p1"⟩, ⟨"r1", "p1", "p2"⟩) ∉ tangledPairs pins ropes ∧
       (⟨"r1", "p1", "p2"⟩, ⟨"r0", "p0", "p1"⟩) ∉ tangledPairs pins ropes) ∧
     (∀ x1 y1 z1 w1 x2 y2 z2 w2 x3 y3 z3 w3 x4 y4 z4 w4 : ℚ,
       doIntersect ⟨x1, y1, z1⟩ ⟨x2, y2, z2⟩ ⟨x3, y3, z3⟩ ⟨x4, y4, z4⟩ =
       doIntersect ⟨x1, y1, w1⟩ ⟨x2, y2, w2⟩ ⟨x3, y3, w3⟩ ⟨x4, y4, w4⟩)) :=
  ⟨by decide, adjacent_never_tangled ⟨"r0", "p0", "p1"⟩ ⟨"r1", "p1", "p2"⟩ (by decide)⟩

/-- C9: once `isComplete` is set, pointer-move and pointer-down requests are
exact no-ops, pointer-up never changes pin positions and never clears
`isComplete`, and the win check is a no-op — the instance never returns to
the unsolved state and positions stay unchanged. -/
theorem solved_terminal (s : EngineState) (h : s.isComplete = true) :
    (∀ target, onPointerMove s target = s) ∧
    (∀ hit, onPointerDown s hit = s) ∧
    (onPointerUp s).pins = s.pins ∧
    (onPointerUp s).isComplete = true ∧
    checkWinCondition s = s := by
  have hwin : ∀ t : EngineState, t.isComplete = true → checkWinCondition t = t := by
    intro t ht
    unfold checkWinCondition
    rw [if_pos (Or.inr ht)]
  refine ⟨?_, ?_, ?_, ?_, hwin s h⟩
  · intro target
    unfold onPointerMove
    rw [if_pos (Or.inr h)]
  · intro hit
    unfold onPointerDown
    rw [if_pos h]
  · unfold onPointerUp
    cases s.selectedPointId with
    | none => rfl
    | some i => rw [hwin { s with selectedPointId := none } h]
  · unfold onPointerUp
    cases s.selectedPointId with
    | none => exact h
    | some i => rw [hwin { s with selectedPointId := none } h]; exact h

/-- Witness for `solved_terminal`: a completed instance. -/
theorem solved_terminal_witness :
    (⟨[], [], none, true, true⟩ : EngineState).isComplete = true ∧
    ((∀ target, onPointerMove ⟨[], [], none, true, true⟩ target =
        (⟨[], [], none, true, true⟩ : EngineState)) ∧
     (∀ hit, onPointerDown ⟨[], [], none, true, true⟩ hit =
        (⟨[], [], none, true, true⟩ : EngineState)) ∧
     (onPointerUp ⟨[], [], none, true, true⟩).pins =
        (⟨[], [], none, true, true⟩ : EngineState).pins ∧
     (onPointerUp ⟨[], [], none, true, true⟩).isComplete = true ∧
     checkWinCondition ⟨[], [], none, true, true⟩ =
        (⟨[], [], none, true, true⟩ : EngineState)) :=
  ⟨rfl, solved_terminal ⟨[], [], none, true, true⟩ rfl⟩

lemma initPoints_length (place : ℕ → ℚ × ℚ) (n : ℕ) :
    (initPoints place n).length = n := by
  simp [initPoints]

lemma swapXY_length (pts : List Point) (a b : ℕ) :
    (swapXY pts a b).length = pts.length := by
  unfold swapXY
  rcases h1 : pts[a]? with _ | pa <;> rcases h2 : pts[b]? with _ | pb <;> simp

lemma scramblePhase_length (n : ℕ) (rands : ℕ → ℚ × ℚ) :
    ∀ (cnt k : ℕ) (pts : List Point),
      (scramblePhase n rands k cnt pts).length = pts.length := by
  intro cnt
  induction cnt with
  | zero => intro k pts; rfl
  | succ m ih => intro k pts; rw [scramblePhase, ih, swapXY_length]

lemma jitterPhase_length (rands : ℕ → ℚ × ℚ) :
    ∀ (pts : List Point) (k : ℕ), (jitterPhase rands k pts).length = pts.length := by
  intro pts
  induction pts with
  | nil => intro k; rfl
  | cons p ps ih => intro k; rw [jitterPhase, List.length_cons, ih, List.length_cons]

lemma generateLevel_points_length (place : ℕ → ℚ × ℚ) (lvl : ℕ)
    (eR sR jR : ℕ → ℚ × ℚ) :
    (generateLevel place lvl eR sR jR).points.length = pointCount lvl := by
  unfold generateLevel
  rw [jitterPhase_length, scramblePhase_length, initPoints_length]

/-- C5: for every level index ≥ 1 and every choice of random streams, the
generated level has exactly `min(5 + ⌊levelIndex / 10⌋, 15)` points. -/
theorem generateLevel_pointCount (place : ℕ → ℚ × ℚ) (lvl : ℕ)
    (eR sR jR : ℕ → ℚ × ℚ) (_h : 1 ≤ lvl) :
    (generateLevel place lvl eR sR jR).points.length = min (5 + lvl / 10) 15 :=
  generateLevel_points_length place lvl eR sR jR

/-- Witness for `generateLevel_pointCount` at level 3. -/
theorem generateLevel_pointCount_witness :
    1 ≤ 3 ∧
    (generateLevel (fun _ => (0, 0)) 3 (fun _ => (0, 0)) (fun _ => (0, 0))
      (fun _ => (0, 0))).points.length = min (5 + 3 / 10) 15 :=
  ⟨by decide,
   generateLevel_pointCount (fun _ => (0, 0)) 3 (fun _ => (0, 0)) (fun _ => (0, 0))
     (fun _ => (0, 0)) (by decide)⟩

/-- C6: difficulty is monotone — at a strictly higher level index neither the
node count nor the scramble count ever decreases, and the generated levels'
node counts compare accordingly for all random choices. -/
theorem difficulty_monotone (lvl1 lvl2 : ℕ) (h : lvl1 < lvl2) :
    pointCount lvl1 ≤ pointCount lvl2 ∧
    scrambleCount lvl1 ≤ scrambleCount lvl2 ∧
    ∀ place eR sR jR place' eR' sR' jR',
      (generateLevel place lvl1 eR sR jR).points.length ≤
        (generateLevel place' lvl2 eR' sR' jR').points.length := by
  have hp : pointCount lvl1 ≤ pointCount lvl2 := by
    unfold pointCount
    exact min_le_min (Nat.add_le_add_left (Nat.div_le_div_right h.le) 5) le_rfl
  refine ⟨hp, ?_, ?_⟩
  · unfold scrambleCount
    exact Nat.add_le_add_left (Nat.mul_le_mul_right 2 h.le) 20
  · intro place eR sR jR place' eR' sR' jR'
    rw [generateLevel_points_length, generateLevel_points_length]
    exact hp

/-- Witness for `difficulty_monotone` at levels 1 < 2. -/
theorem difficulty_monotone_witness :
    1 < 2 ∧
    (pointCount 1 ≤ pointCount 2 ∧
     scrambleCount 1 ≤ scrambleCount 2 ∧
     ∀ place eR sR jR place' eR' sR' jR',
       (generateLevel place 1 eR sR jR).points.length ≤
         (generateLevel place' 2 eR' sR' jR').points.length) :=
  ⟨by decide, difficulty_monotone 1 2 (by decide)⟩

/-- C8 counterexample: the claim says a non-positive level index is rejected
with an error, but `generateLevel` performs no validation at all — at index 0
it silently returns an ordinary `LevelData` with the minimum 5 points. -/
theorem generateLevel_zero_produces :
    (generateLevel (fun _ => (0, 0)) 0 (fun _ => (0, 0)) (fun _ => (0, 0))
      (fun _ => (0, 0))).points.length = 5 := by
  rw [generateLevel_points_length]
  decide

/-- C8 (amended): the generator never rejects: for every level index —
including the non-positive index 0 — and every random streams it produces a
`LevelData` with the clamped node count `min(5 + ⌊lvl/10⌋, 15)`, hence at
least 5 points; no error is ever reported (only derived difficulty
parameters are clamped). -/
theorem generateLevel_no_validation (place : ℕ → ℚ × ℚ) (lvl : ℕ)
    (eR sR jR : ℕ → ℚ × ℚ) :
    (generateLevel place lvl eR sR jR).points.length = min (5 + lvl / 10) 15 ∧
    5 ≤ (generateLevel place lvl eR sR jR).points.length := by
  rw [generateLevel_points_length]
  exact ⟨rfl, le_min (Nat.le_add_right 5 _) (by norm_num)⟩

lemma pointCount_ge5 (lvl : ℕ) : 5 ≤ pointCount lvl :=
  le_min (Nat.le_add_right 5 _) (by norm_num)

lemma pointCount_pos (lvl : ℕ) : 0 < pointCount lvl :=
  lt_of_lt_of_le (by norm_num) (pointCount_ge5 lvl)

lemma randIdx_lt (r : ℚ) (n : ℕ) (hn : 0 < n) (_h0 : 0 ≤ r) (h1 : r < 1) :
    randIdx r n < n := by
  unfold randIdx
  have hf : ⌊r * (n : ℚ)⌋ < (n : ℤ) := by
    apply Int.floor_lt.mpr
    push_cast
    calc r * (n : ℚ) < 1 * (n : ℚ) := by
          apply mul_lt_mul_of_pos_right h1
          exact_mod_cast hn
      _ = (n : ℚ) := one_mul _
  omega

lemma randOffset_lt (r : ℚ) (n : ℕ) (hn : 0 < n) (h0 : 0 ≤ r) (h1 : r < 1) :
    (randOffset r n : ℚ) < 2 + (n : ℚ) / 3 := by
  unfold randOffset
  have hpos : (0 : ℚ) < (n : ℚ) / 3 := by
    apply div_pos _ (by norm_num)
    exact_mod_cast hn
  have hnn : 0 ≤ ⌊r * ((n : ℚ) / 3)⌋ :=
    Int.floor_nonneg.mpr (mul_nonneg h0 (le_of_lt hpos))
  have hff : (⌊r * ((n : ℚ) / 3)⌋ : ℚ) ≤ r * ((n : ℚ) / 3) := Int.floor_le _
  have h2 : r * ((n : ℚ) / 3) < (n : ℚ) / 3 := by
    calc r * ((n : ℚ) / 3) < 1 * ((n : ℚ) / 3) := mul_lt_mul_of_pos_right h1 hpos
      _ = (n : ℚ) / 3 := one_mul _
  have hcast : ((⌊r * ((n : ℚ) / 3)⌋.toNat : ℕ) : ℚ) = ((⌊r * ((n : ℚ) / 3)⌋ : ℤ) : ℚ) := by
    exact_mod_cast congrArg (fun z : ℤ => (z : ℚ)) (Int.toNat_of_nonneg hnn)
  push_cast
  rw [hcast]
  linarith

lemma goodState_init (n : ℕ) : GoodState n ⟨[], []⟩ := by
  constructor
  · intro p hp
    exact absurd hp (List.not_mem_nil p)
  · exact List.nodup_nil

lemma addRope_good {n : ℕ} {st : GenRopes} (i j : ℕ) (hi : i < n) (hj : j < n)
    (h : GoodState n st) : GoodState n (addRope st i j) := by
  unfold addRope
  split
  case isTrue hc =>
    obtain ⟨hij, hkey⟩ := hc
    constructor
    · intro p hp
      rw [List.mem_append, List.mem_singleton] at hp
      rcases hp with hp | hp
      · exact ⟨(h.1 p hp).1, List.mem_cons_of_mem _ (h.1 p hp).2⟩
      · subst hp
        exact ⟨⟨hij, hi, hj⟩, List.mem_cons_self _ _⟩
    · rw [List.map_append]
      apply List.Nodup.append h.2 (by rw [List.map_singleton]; exact List.nodup_singleton _)
      intro x hx hx'
      rw [List.map_singleton, List.mem_singleton] at hx'
      subst hx'
      obtain ⟨q, hq, hqk⟩ := List.mem_map.mp hx
      exact hkey (hqk ▸ (h.1 q hq).2)
  case isFalse _ => exact h

lemma ringPhase_good (n : ℕ) : GoodState n (ringPhase n) := by
  unfold ringPhase
  have key : ∀ (l : List ℕ) (st : GenRopes), (∀ i ∈ l, i < n) → GoodState n st →
      GoodState n (l.foldl (fun st i => addRope st i ((i + 1) % n)) st) := by
    intro l
    induction l with
    | nil => intro st _ hst; exact hst
    | cons x xs ih =>
        intro st hl hst
        have hx : x < n := hl x (List.mem_cons_self x xs)
        have hn : 0 < n := lt_of_le_of_lt (Nat.zero_le x) hx
        exact ih _ (fun i hi => hl i (List.mem_cons_of_mem x hi))
          (addRope_good x ((x + 1) % n) hx (Nat.mod_lt _ hn) hst)
  exact key (List.range n) ⟨[], []⟩ (fun i hi => List.mem_range.mp hi) (goodState_init n)

lemma extraPhase_good {n : ℕ} {rands : ℕ → ℚ × ℚ} (hr : RandStream01 rands)
    (hn : 0 < n) :
    ∀ (cnt k : ℕ) (st : GenRopes), GoodState n st →
      GoodState n (extraPhase n rands k cnt st) := by
  intro cnt
  induction cnt with
  | zero => intro k st h; exact h
  | succ m ih =>
      intro k st h
      rw [extraPhase]
      apply ih
      exact addRope_good _ _ (randIdx_lt _ _ hn (hr k).1 (hr k).2.1)
        (Nat.mod_lt _ hn) h

lemma addRope_pairs_cases {st : GenRopes} {i j : ℕ} {p : ℕ × ℕ}
    (hp : p ∈ (addRope st i j).pairs) : p ∈ st.pairs ∨ p = (i, j) := by
  unfold addRope at hp
  split at hp
  · rw [List.mem_append, List.mem_singleton] at hp
    exact hp
  · exact Or.inl hp

lemma extraPhase_chords {n : ℕ} {rands : ℕ → ℚ × ℚ} (hr : RandStream01 rands)
    (hn : 0 < n) :
    ∀ (cnt k : ℕ) (st : GenRopes), ∀ p ∈ (extraPhase n rands k cnt st).pairs,
      p ∈ st.pairs ∨ ChordForm n p := by
  intro cnt
  induction cnt with
  | zero => intro k st p hp; exact Or.inl hp
  | succ m ih =>
      intro k st p hp
      rw [extraPhase] at hp
      rcases ih (k + 1) _ p hp with hmem | hcf
      · rcases addRope_pairs_cases hmem with h | h
        · exact Or.inl h
        · exact Or.inr ⟨randIdx (rands k).1 n, randOffset (rands k).2 n,
            randIdx_lt _ _ hn (hr k).1 (hr k).2.1, Nat.le_add_right 2 _,
            randOffset_lt _ _ hn (hr k).2.2.1 (hr k).2.2.2, h⟩
      · exact Or.inr hcf

lemma list_set_self {α : Type} :
    ∀ (l : List α) (n : ℕ) (x : α), l[n]? = some x → l.set n x = l := by
  intro l
  induction l with
  | nil => intro n x h; simp at h
  | cons a as ih =>
      intro n x h
      cases n with
      | zero =>
          simp only [List.getElem?_cons_zero, Option.some.injEq] at h
          rw [List.set_cons_zero, h]
      | succ m =>
          simp only [List.getElem?_cons_succ] at h
          rw [List.set_cons_succ, ih m x h]

lemma swapXY_map_id (pts : List Point) (a b : ℕ) :
    (swapXY pts a b).map Point.id = pts.map Point.id := by
  unfold swapXY
  rcases h1 : pts[a]? with _ | pa
  · rfl
  rcases h2 : pts[b]? with _ | pb
  · rfl
  have ha : (pts.map Point.id)[a]? = some (Point.id { pa with x := pb.x, y := pb.y }) := by
    rw [List.getElem?_map, h1]; rfl
  have hb : (pts.map Point.id)[b]? = some (Point.id { pb with x := pa.x, y := pa.y }) := by
    rw [List.getElem?_map, h2]; rfl
  rw [List.map_set, List.map_set, list_set_self _ a _ ha, list_set_self _ b _ hb]

lemma scramblePhase_map_id (n : ℕ) (rands : ℕ → ℚ × ℚ) :
    ∀ (cnt k : ℕ) (pts : List Point),
      (scramblePhase n rands k cnt pts).map Point.id = pts.map Point.id := by
  intro cnt
  induction cnt with
  | zero => intro k pts; rfl
  | succ m ih => intro k pts; rw [scramblePhase, ih, swapXY_map_id]

lemma jitterPhase_map_id (rands : ℕ → ℚ × ℚ) :
    ∀ (pts : List Point) (k : ℕ),
      (jitterPhase rands k pts).map Point.id = pts.map Point.id := by
  intro pts
  induction pts with
  | nil => intro k; rfl
  | cons p ps ih =>
      intro k
      rw [jitterPhase, List.map_cons, List.map_cons, ih]

lemma initPoints_map_id (place : ℕ → ℚ × ℚ) (n : ℕ) :
    (initPoints place n).map Point.id = (List.range n).map pid := by
  unfold initPoints
  rw [List.map_map]
  rfl

lemma pid_inj15 : ∀ i j : Fin 15, pid i.val = pid j.val → i = j := by decide

lemma pid_inj_of_lt {i j n : ℕ} (hn : n ≤ 15) (hi : i < n) (hj : j < n)
    (h : pid i = pid j) : i = j := by
  have hi' : i < 15 := lt_of_lt_of_le hi hn
  have hj' : j < 15 := lt_of_lt_of_le hj hn
  have := pid_inj15 ⟨i, hi'⟩ ⟨j, hj'⟩ h
  exact congrArg Fin.val this

lemma pid_range_nodup {n : ℕ} (hn : n ≤ 15) : ((List.range n).map pid).Nodup := by
  apply List.Nodup.map_on ?_ (List.nodup_range n)
  intro i hi j hj h
  exact pid_inj_of_lt hn (List.mem_range.mp hi) (List.mem_range.mp hj) h

lemma generateLevel_map_id (place : ℕ → ℚ × ℚ) (lvl : ℕ) (eR sR jR : ℕ → ℚ × ℚ) :
    (generateLevel place lvl eR sR jR).points.map Point.id =
      (List.range (pointCount lvl)).map pid := by
  unfold generateLevel
  rw [jitterPhase_map_id, scramblePhase_map_id, initPoints_map_id]

lemma mem_ropesOfPairs :
    ∀ (k : ℕ) (ps : List (ℕ × ℕ)) (r : Rope), r ∈ ropesOfPairs k ps →
      ∃ q ∈ ps, r.p1 = pid q.1 ∧ r.p2 = pid q.2 := by
  intro k ps
  induction ps generalizing k with
  | nil => intro r hr; simp [ropesOfPairs] at hr
  | cons q qs ih =>
      intro r hr
      rw [ropesOfPairs, List.mem_cons] at hr
      rcases hr with rfl | hr
      · exact ⟨q, List.mem_cons_self _ _, rfl, rfl⟩
      · obtain ⟨q', hq', h1, h2⟩ := ih (k + 1) r hr
        exact ⟨q', List.mem_cons_of_mem _ hq', h1, h2⟩

lemma ropesOfPairs_pairwise {R : ℕ × ℕ → ℕ × ℕ → Prop} {T : Rope → Rope → Prop}
    (hRT : ∀ p q : ℕ × ℕ, R p q → ∀ r s : Rope, r.p1 = pid p.1 → r.p2 = pid p.2 →
      s.p1 = pid q.1 → s.p2 = pid q.2 → T r s) :
    ∀ (ps : List (ℕ × ℕ)) (k : ℕ), ps.Pairwise R → (ropesOfPairs k ps).Pairwise T := by
  intro ps
  induction ps with
  | nil => intro k _; exact List.Pairwise.nil
  | cons p qs ih =>
      intro k hp
      rw [List.pairwise_cons] at hp
      obtain ⟨hhead, htail⟩ := hp
      rw [ropesOfPairs, List.pairwise_cons]
      refine ⟨?_, ih (k + 1) htail⟩
      intro s hs
      obtain ⟨q, hq, h1, h2⟩ := mem_ropesOfPairs (k + 1) qs s hs
      exact hRT p q (hhead q hq) _ s rfl rfl h1 h2

/-- C4: for every level index and every valid run of `Math.random()`, the
generated `LevelData` has pairwise-distinct point ids, every rope joins two
distinct, existing point ids, and no unordered id pair occurs as a rope more
than once (the dedup set keyed by the sorted index pair). -/
theorem generateLevel_invariants (place : ℕ → ℚ × ℚ) (lvl : ℕ)
    (eR sR jR : ℕ → ℚ × ℚ) (hE : RandStream01 eR) :
    ((generateLevel place lvl eR sR jR).points.map Point.id).Nodup ∧
    (∀ r ∈ (generateLevel place lvl eR sR jR).ropes,
      r.p1 ≠ r.p2 ∧
      r.p1 ∈ (generateLevel place lvl eR sR jR).points.map Point.id ∧
      r.p2 ∈ (generateLevel place lvl eR sR jR).points.map Point.id) ∧
    (generateLevel place lvl eR sR jR).ropes.Pairwise
      (fun r s => ¬ (r.p1 = s.p1 ∧ r.p2 = s.p2) ∧ ¬ (r.p1 = s.p2 ∧ r.p2 = s.p1)) := by
  have hn : 0 < pointCount lvl := pointCount_pos lvl
  have h15 : pointCount lvl ≤ 15 := min_le_right _ _
  have hids := generateLevel_map_id place lvl eR sR jR
  have hgood : GoodState (pointCount lvl)
      (extraPhase (pointCount lvl) eR 0 (extraRopeCount lvl).toNat
        (ringPhase (pointCount lvl))) :=
    extraPhase_good hE hn _ 0 _ (ringPhase_good _)
  have hropes : (generateLevel place lvl eR sR jR).ropes =
      ropesOfPairs 0 (extraPhase (pointCount lvl) eR 0 (extraRopeCount lvl).toNat
        (ringPhase (pointCount lvl))).pairs := rfl
  refine ⟨?_, ?_, ?_⟩
  · rw [hids]
    exact pid_range_nodup h15
  · intro r hr
    rw [hropes] at hr
    obtain ⟨q, hq, h1, h2⟩ := mem_ropesOfPairs 0 _ r hr
    obtain ⟨⟨hne, hq1, hq2⟩, -⟩ := hgood.1 q hq
    refine ⟨?_, ?_, ?_⟩
    · rw [h1, h2]
      intro hc
      exact hne (pid_inj_of_lt h15 hq1 hq2 hc)
    · rw [hids, h1]
      exact List.mem_map_of_mem _ (List.mem_range.mpr hq1)
    · rw [hids, h2]
      exact List.mem_map_of_mem _ (List.mem_range.mpr hq2)
  · rw [hropes]
    have hP0 : (extraPhase (pointCount lvl) eR 0 (extraRopeCount lvl).toNat
        (ringPhase (pointCount lvl))).pairs.Pairwise
          (fun p q => keyOf p ≠ keyOf q) := List.pairwise_map.mp hgood.2
    have hPG : (extraPhase (pointCount lvl) eR 0 (extraRopeCount lvl).toNat
        (ringPhase (pointCount lvl))).pairs.Pairwise
          (fun p q => keyOf p ≠ keyOf q ∧ goodPair (pointCount lvl) p ∧
            goodPair (pointCount lvl) q) :=
      List.Pairwise.imp_of_mem
        (fun hp hq h => ⟨h, (hgood.1 _ hp).1, (hgood.1 _ hq).1⟩) hP0
    apply ropesOfPairs_pairwise ?_ _ 0 hPG
    rintro p q ⟨hkey, ⟨-, hp1, hp2⟩, -, hq1, hq2⟩ r s hr1 hr2 hs1 hs2
    constructor
    · rintro ⟨e1, e2⟩
      rw [hr1, hs1] at e1
      rw [hr2, hs2] at e2
      have a1 := pid_inj_of_lt h15 hp1 hq1 e1
      have a2 := pid_inj_of_lt h15 hp2 hq2 e2
      apply hkey
      unfold keyOf
      rw [a1, a2]
    · rintro ⟨e1, e2⟩
      rw [hr1, hs2] at e1
      rw [hr2, hs1] at e2
      have a1 := pid_inj_of_lt h15 hp1 hq2 e1
      have a2 := pid_inj_of_lt h15 hp2 hq1 e2
      apply hkey
      unfold keyOf
      rw [a1, a2, min_comm, max_comm]

/-- Witness for `generateLevel_invariants`: level 1 with the zero stream. -/
theorem generateLevel_invariants_witness :
    RandStream01 (fun _ => (0, 0)) ∧
    (((generateLevel (fun _ => (0, 0)) 1 (fun _ => (0, 0)) (fun _ => (0, 0))
        (fun _ => (0, 0))).points.map Point.id).Nodup ∧
     (∀ r ∈ (generateLevel (fun _ => (0, 0)) 1 (fun _ => (0, 0)) (fun _ => (0, 0))
        (fun _ => (0, 0))).ropes,
       r.p1 ≠ r.p2 ∧
       r.p1 ∈ (generateLevel (fun _ => (0, 0)) 1 (fun _ => (0, 0)) (fun _ => (0, 0))
         (fun _ => (0, 0))).points.map Point.id ∧
       r.p2 ∈ (generateLevel (fun _ => (0, 0)) 1 (fun _ => (0, 0)) (fun _ => (0, 0))
         (fun _ => (0, 0))).points.map Point.id) ∧
     (generateLevel (fun _ => (0, 0)) 1 (fun _ => (0, 0)) (fun _ => (0, 0))
        (fun _ => (0, 0))).ropes.Pairwise
       (fun r s => ¬ (r.p1 = s.p1 ∧ r.p2 = s.p2) ∧ ¬ (r.p1 = s.p2 ∧ r.p2 = s.p1))) :=
  ⟨fun _ => ⟨le_refl 0, zero_lt_one, le_refl 0, zero_lt_one⟩,
   generateLevel_invariants (fun _ => (0, 0)) 1 (fun _ => (0, 0)) (fun _ => (0, 0))
     (fun _ => (0, 0)) (fun _ => ⟨le_refl 0, zero_lt_one, le_refl 0, zero_lt_one⟩)⟩

/-- C7 (amended): the extra-chord loop runs `⌊N·density⌋ − N` times with
`density = 1.2 + (levelIndex/100)·0.8`, and for every valid random stream
every generated rope pair beyond the mandatory ring has chord form: node `i`
joined to `(i + o) mod N` for an offset `o` with `2 ≤ o < 2 + N/3`.  (The
claim's bound `o ≤ N/3` is too tight; see the counterexample.) -/
theorem extraChords_spec (place : ℕ → ℚ × ℚ) (lvl : ℕ) (eR sR jR : ℕ → ℚ × ℚ)
    (hE : RandStream01 eR) :
    (generateLevel place lvl eR sR jR).ropes =
      ropesOfPairs 0 (extraPhase (pointCount lvl) eR 0 (extraRopeCount lvl).toNat
        (ringPhase (pointCount lvl))).pairs ∧
    extraRopeCount lvl =
      ⌊(pointCount lvl : ℚ) * connectionDensity lvl⌋ - pointCount lvl ∧
    ∀ p ∈ (extraPhase (pointCount lvl) eR 0 (extraRopeCount lvl).toNat
        (ringPhase (pointCount lvl))).pairs,
      p ∈ (ringPhase (pointCount lvl)).pairs ∨ ChordForm (pointCount lvl) p :=
  ⟨rfl, rfl, fun p hp => extraPhase_chords hE (pointCount_pos lvl) _ 0 _ p hp⟩

/-- Witness for `extraChords_spec`: level 1 with the zero stream. -/
theorem extraChords_spec_witness :
    RandStream01 (fun _ => (0, 0)) ∧
    ((generateLevel (fun _ => (0, 0)) 1 (fun _ => (0, 0)) (fun _ => (0, 0))
        (fun _ => (0, 0))).ropes =
      ropesOfPairs 0 (extraPhase (pointCount 1) (fun _ => (0, 0)) 0
        (extraRopeCount 1).toNat (ringPhase (pointCount 1))).pairs ∧
     extraRopeCount 1 =
      ⌊(pointCount 1 : ℚ) * connectionDensity 1⌋ - pointCount 1 ∧
     ∀ p ∈ (extraPhase (pointCount 1) (fun _ => (0, 0)) 0 (extraRopeCount 1).toNat
        (ringPhase (pointCount 1))).pairs,
      p ∈ (ringPhase (pointCount 1)).pairs ∨ ChordForm (pointCount 1) p) :=
  ⟨fun _ => ⟨le_refl 0, zero_lt_one, le_refl 0, zero_lt_one⟩,
   extraChords_spec (fun _ => (0, 0)) 1 (fun _ => (0, 0)) (fun _ => (0, 0))
     (fun _ => (0, 0)) (fun _ => ⟨le_refl 0, zero_lt_one, le_refl 0, zero_lt_one⟩)⟩

/-- C7 counterexample: at level 1 (N = 5) the all-zero random run adds the
chord `(0, 2)` — not a ring edge — yet no offset `o` with `2 ≤ o ≤ N/3`
exists at all, since `2 > 5/3`: the claimed offset interval `[2, N/3]` is
violated by the code. -/
theorem extraChords_offset_claim_false :
    (0, 2) ∈ (extraPhase (pointCount 1) (fun _ => ((0 : ℚ), (0 : ℚ))) 0
      (extraRopeCount 1).toNat (ringPhase (pointCount 1))).pairs ∧
    (0, 2) ∉ (ringPhase (pointCount 1)).pairs ∧
    ¬ ∃ i o : ℕ, i < pointCount 1 ∧ 2 ≤ o ∧ (o : ℚ) ≤ (pointCount 1 : ℚ) / 3 ∧
      ((0, 2) : ℕ × ℕ) = (i, (i + o) % pointCount 1) := by
  have hc : pointCount 1 = 5 := by decide
  have he : (extraRopeCount 1).toNat = 1 := by
    rw [show extraRopeCount 1 = 1 from by
      unfold extraRopeCount connectionDensity
      rw [hc]
      norm_num]
    rfl
  refine ⟨?_, ?_, ?_⟩
  · rw [hc, he]
    have h1 : randIdx ((0 : ℚ), (0 : ℚ)).1 5 = 0 := by norm_num [randIdx]
    have h2 : randOffset ((0 : ℚ), (0 : ℚ)).2 5 = 2 := by norm_num [randOffset]
    simp only [extraPhase, h1, h2]
    decide
  · rw [hc]
    decide
  · rw [hc]
    rintro ⟨i, o, hi, ho2, ho3, hp⟩
    have h2q : (2 : ℚ) ≤ (o : ℚ) := by exact_mod_cast ho2
    have h53 : ((5 : ℕ) : ℚ) / 3 < 2 := by norm_num
    linarith
